import Mathlib

set_option autoImplicit false

/-!
Shallow embedding of the andromeda crawler / graph-writer pipeline.

Go maps whose keys are strings are modelled as association lists
(`List (String × String)` etc.) read through `alookup`, which returns the
first binding of a key; every map-producing operation modelled here inserts
a key at most once, so the first-binding read agrees with Go map semantics.
Channels consumed by a single reader are modelled as lists in arrival order.
External collaborators (dgraph, DynamoDB, SQS, the deno subprocess) are
modelled by explicit oracle parameters giving their per-call outcomes.
-/

namespace Andromeda

/-- Error values carried by Go `error` returns; only presence matters. -/
abbrev Err := String

/-- Association-list lookup: value of the first pair whose key matches. -/
def alookup : List (String × String) → String → Option String
  | [], _ => none
  | (k, v) :: rest, key => if k = key then some v else alookup rest key

/-- Observation of `ctx.Done()` inside a loop: the context is seen cancelled
at every loop iteration from the oracle's index on. -/
def cancelNow (cancelAt : Option Nat) (n : Nat) : Bool :=
  match cancelAt with
  | none => false
  | some c => decide (c ≤ n)

/-- Character-list core of the Go test used to filter ledger keys: does the
second list start with the first one. -/
def charsPre : List Char → List Char → Bool
  | [], _ => true
  | _ :: _, [] => false
  | p :: ps, c :: cs => p == c && charsPre ps cs

/-- Go test whether string `s` starts with `p` (the `strings` package helper
the writer applies to mutation-response keys). -/
def goHasPre (s p : String) : Bool := charsPre p.data s.data

end Andromeda

namespace Andromeda.deno

/-- Entry of a module version's directory listing (deno/x.go `directoryListing`). -/
structure directoryListing where
  path : String
  size : Int
  type : String
deriving DecidableEq, Repr

/-- Module work unit (deno/x.go `Module`): a name plus a version → file-listing
map, modelled as an association list in iteration order. -/
structure Module where
  Name : String
  Versions : List (String × List directoryListing)
deriving DecidableEq, Repr

/-- Entry of the `files` map of a `deno info` result (deno/info.go `FileEntry`). -/
structure FileEntry where
  Deps : List String
  Size : Int
deriving DecidableEq, Repr

/-- Output of `deno info --json` (deno/info.go `DenoInfo`); the `files` map is
modelled as an association list in iteration order.  The `map`, `compiled`,
`depCount` and `fileType` fields play no role in any claim and are omitted. -/
structure DenoInfo where
  TotalSize : Int
  Module : String
  Files : List (String × FileEntry)
deriving DecidableEq, Repr

/-- Zero value of `DenoInfo`, as produced by `DenoInfo{}` in Go. -/
def emptyDenoInfo : DenoInfo := ⟨0, "", []⟩

/-- Zero value of `Module`, as produced by `Module{}` in Go. -/
def zeroModule : Module := ⟨"", []⟩

/-- Go `filepath.Ext`: suffix starting at the final dot of the final
slash-separated element; empty when there is no such dot.  `extAux` scans the
reversed character list, accumulating the suffix seen so far. -/
def extAux (acc : List Char) : List Char → String
  | [] => ""
  | c :: rest =>
    if c = '/' then ""
    else if c = '.' then String.mk (c :: acc)
    else extAux (c :: acc) rest

/-- Go `filepath.Ext` on a linux path. -/
def goExt (p : String) : String := extAux [] p.data.reverse

/-- Go `filepath.Base` on a linux path: last element after removing trailing
slashes; `"."` for the empty path, `"/"` when the path is all slashes. -/
def goBase (p : String) : String :=
  if p = "" then "."
  else
    let stripped := (p.data.reverse.dropWhile (fun c => c = '/')).reverse
    if stripped = [] then "/"
    else String.mk (stripped.reverse.takeWhile (fun c => c ≠ '/')).reverse

/-- Translation of deno/x.go `stripUselessEntries`: the in-place deletion loop
re-examines position `i` after each deletion, which is exactly this
structural recursion over the listing. -/
def stripUselessEntries : List directoryListing → List directoryListing
  | [] => []
  | d :: rest =>
    if d.type = "dir" then stripUselessEntries rest
    else
      if goExt d.path ≠ ".js" ∧ goExt d.path ≠ ".ts" ∧ goExt d.path ≠ ".jsx" ∧
          goExt d.path ≠ ".tsx" ∧ goBase d.path ≠ "README.md"
      then stripUselessEntries rest
      else d :: stripUselessEntries rest

/-- Keep predicate as the spec states it (refinement target for the strip
filter): not a directory, and a source extension or a README.md basename. -/
def keepEntry (d : directoryListing) : Bool :=
  decide (¬ d.type = "dir" ∧
    (goExt d.path = ".js" ∨ goExt d.path = ".ts" ∨ goExt d.path = ".jsx" ∨
      goExt d.path = ".tsx" ∨ goBase d.path = "README.md"))

/-- In-memory queue over a Go channel (deno queue file, `ChanQueue`).  `mods`
is the buffered content of the channel, `senderClosed` records that `close`
was called on it, and `closed` is the struct's own flag set by `Get`. -/
structure ChanQueue where
  mods : List Module
  senderClosed : Bool
  closed : Bool
deriving DecidableEq, Repr

/-- `ChanQueue.Put` sends on the channel and returns a nil error. -/
def ChanQueue.Put (q : ChanQueue) (m : Module) : ChanQueue × Option Err :=
  ({ q with mods := q.mods ++ [m] }, none)

/-- `ChanQueue.Get` models `m, ok := <-q.mods`: a buffered value is delivered
first; on an empty closed channel the receive yields the zero `Module` with
`ok = false` and the queue marks itself closed.  An empty open channel blocks,
hence the `Option` result (`none` = the call does not return). -/
def ChanQueue.Get (q : ChanQueue) : Option (ChanQueue × Module × Option Err) :=
  match q.mods with
  | m :: rest => some ({ q with mods := rest }, m, none)
  | [] =>
    if q.senderClosed then some ({ q with closed := true }, zeroModule, none)
    else none

/-- `ChanQueue.isOpened` returns the negation of the struct's `closed` flag. -/
def ChanQueue.isOpened (q : ChanQueue) : Bool := !q.closed

/-- Context-aware `deno.ExecInfo` (the variant `main.go` invokes): spawn the
subprocess, decode stdout, then select between context cancellation and the
subprocess's exit.  Oracles: `pipeErr` for `cmd.StdoutPipe`, `startErr` for
`cmd.Start`, `decoded` for the JSON decode of stdout, `cancelled` for the
select picking `ctx.Done()`, and `waitErr` for `cmd.Wait`.  Result: the
returned `DenoInfo`, the returned error, and whether SIGTERM was sent. -/
def ExecInfo (pipeErr startErr : Option Err) (decoded : Except Err DenoInfo)
    (cancelled : Bool) (waitErr : Option Err) : DenoInfo × Option Err × Bool :=
  match pipeErr with
  | some e => (emptyDenoInfo, some e, false)
  | none =>
    match startErr with
    | some e => (emptyDenoInfo, some e, false)
    | none =>
      match decoded with
      | .error e => (emptyDenoInfo, some e, false)
      | .ok info =>
        if cancelled then (emptyDenoInfo, none, true)
        else
          match waitErr with
          | some e => (emptyDenoInfo, some e, false)
          | none => (info, none, false)

end Andromeda.deno

namespace Andromeda.constellation

/-- Graph node for one source file (constellation `File`); `DependsOn` makes
the type recursive, so it is an inductive with field accessors below. -/
inductive File where
  | mk (Uid : String) (Specifier : String) (DependsOn : List File)
      (DType : List String)

/-- Accessor for the `Uid` field of `File`. -/
def File.Uid : File → String
  | .mk u _ _ _ => u

/-- Accessor for the `Specifier` field of `File`. -/
def File.Specifier : File → String
  | .mk _ s _ _ => s

/-- Accessor for the `DependsOn` field of `File`. -/
def File.DependsOn : File → List File
  | .mk _ _ d _ => d

/-- Accessor for the `DType` field of `File`. -/
def File.DType : File → List String
  | .mk _ _ _ t => t

/-- Zero value `File{}`, the element Go's `make([]File, n)` fills slices with. -/
def emptyFile : File := .mk "" "" [] []

/-- Ledger item (constellation DynamoDB file, `Item`): specifier and its graph
identity. -/
structure Item where
  Specifier : String
  Uid : String
deriving DecidableEq, Repr

/-- The specifier → identity ledger table, modelled as an association list. -/
abbrev Ledger := List (String × String)

/-- Translation of `PutEntry` (conditional DynamoDB put with
`attribute_not_exists(specifier)`).  `svcErr` is the oracle for a
non-conditional service failure.  When the specifier already has an entry the
conditional check fails, the code counts it, logs and returns nil: the table
is unchanged and the call succeeds. -/
def PutEntry (svcErr : Option Err) (db : Ledger) (item : Item) :
    Ledger × Option Err :=
  match svcErr with
  | some e => (db, some e)
  | none =>
    if (alookup db item.Specifier).isSome then (db, none)
    else (db ++ [(item.Specifier, item.Uid)], none)

/-- Translation of `GetEntry` (strongly consistent DynamoDB point read): an
absent key unmarshals to the zero `Item`. -/
def GetEntry (db : Ledger) (specifier : String) : Item :=
  match alookup db specifier with
  | some u => ⟨specifier, u⟩
  | none => ⟨"", ""⟩

/-- Translation of constellation `merge` inner loop: insert a pair only when
the key is not already bound in `out`. -/
def mergeInto (out m : List (String × String)) : List (String × String) :=
  m.foldl (fun acc kv => if alookup acc kv.1 = none then acc ++ [kv] else acc) out

/-- Translation of constellation `merge`: fold the maps left to right into an
initially empty map, never overwriting an existing binding. -/
def merge (maps : List (List (String × String))) : List (String × String) :=
  maps.foldl mergeInto []

/-- Identity chosen by `mutateFile` for a specifier: the ledger's identity
when `GetEntry` finds one (a non-empty `Uid`), else the blank `_:<specifier>`. -/
def resolveUid (db : Ledger) (s : String) : String :=
  if (GetEntry db s).Uid ≠ "" then (GetEntry db s).Uid else "_:" ++ s

/-- Insertion into the `blanks` Go map: at most one entry per key. -/
def insertUniq (acc : List String) (s : String) : List String :=
  if s ∈ acc then acc else acc ++ [s]

/-- Keys of the `blanks` map built by `mutateFile`: dependencies absent from
the ledger, then the target specifier when it is absent as well. -/
def blankKeys (db : Ledger) (specifier : String) (deps : List String) :
    List String :=
  let depBlanks :=
    deps.foldl (fun acc d => if (GetEntry db d).Uid ≠ "" then acc
      else insertUniq acc d) []
  if (GetEntry db specifier).Uid ≠ "" then depBlanks
  else insertUniq depBlanks specifier

/-- Dependency slice built by `mutateFile`.  The source writes
`deps := make([]File, len(entry.Deps))` and then `append`s one `File{Uid: uid}`
per dependency, so the slice starts with `len(entry.Deps)` zero-valued
placeholder Files followed by the real dependency references. -/
def goDeps (db : Ledger) (deps : List String) : List File :=
  List.replicate deps.length emptyFile ++
    deps.map (fun d => File.mk (resolveUid db d) "" [] [])

/-- Translation of the instrumented `mutateFile`: build the `File` value that
is marshalled into the mutation and the `resp.Uids` map of the mutation
response.  Oracles: `assign` gives the identity dgraph mints for each blank;
`mutErr` makes `txn.Mutate` fail, in which case the code logs and returns an
empty map with a nil error.  dgraph's response also contains auto-generated
keys for the anonymous `{}` placeholder nodes of `goDeps`; those keys never
carry the `https://` scheme, so they are invisible to the ledger upsert in
`InsertFiles` and are omitted here. -/
def mutateFile (assign : String → String) (mutErr : Bool) (db : Ledger)
    (specifier : String) (entry : deno.FileEntry) :
    File × List (String × String) :=
  let file := File.mk (resolveUid db specifier) specifier
    (goDeps db entry.Deps) ["File"]
  let uids := if mutErr then []
    else (blankKeys db specifier entry.Deps).map (fun s => (s, assign s))
  (file, uids)

/-- Ledger upsert loop of `InsertFiles`: for every entry of the mutation's
`resp.Uids` map whose key has the `https://` scheme, `PutEntry` the pair. -/
def putUids (db : Ledger) (uids : List (String × String)) : Ledger :=
  uids.foldl
    (fun led su =>
      if goHasPre su.1 "https://" then (PutEntry none led ⟨su.1, su.2⟩).1
      else led)
    db

/-- Specifiers occurring in a `files` map: every key followed by its `deps`. -/
def filesSpecifiers : List (String × deno.FileEntry) → List String
  | [] => []
  | (k, f) :: rest => k :: (f.Deps ++ filesSpecifiers rest)

/-- Per-`DenoInfo` environment of the writer: dgraph identity minting, the
per-file mutation outcomes, the loop iteration at which the context is seen
cancelled (`break inner`), and whether `txn.Commit` fails (a cancelled
context also makes the commit fail, which the oracle folds in). -/
structure WriteEnv where
  assign : String → String
  mutErr : Nat → Bool
  cancelAt : Option Nat
  commitErr : Bool

/-- Inner loop of the instrumented `InsertFiles` over one `DenoInfo`'s `files`
map: per entry, check the context, run `mutateFile`, and immediately
`PutEntry` the returned `https://` identities — before the commit. -/
def processFiles (env : WriteEnv) : Ledger → Nat → List (String × deno.FileEntry) → Ledger
  | db, _, [] => db
  | db, i, (k, f) :: rest =>
    if cancelNow env.cancelAt i then db
    else processFiles env (putUids db (mutateFile env.assign (env.mutErr i) db k f).2)
      (i + 1) rest

/-- One iteration of the instrumented `InsertFiles` loop: process the files
map, then commit; on commit failure the code logs, discards and moves on.
Returns the ledger after the iteration and whether the commit succeeded. -/
def insertFilesInfo (env : WriteEnv) (db : Ledger) (info : deno.DenoInfo) :
    Ledger × Bool :=
  (processFiles env db 0 info.Files, !env.commitErr)

/-- Worker loop of the instrumented `InsertFiles` over the channel of
`DenoInfo`, threading the ledger and collecting each commit's outcome. -/
def insertFilesAux (envs : Nat → WriteEnv) : Ledger → Nat → List deno.DenoInfo →
    Ledger × List Bool
  | db, _, [] => (db, [])
  | db, j, info :: rest =>
    let r := insertFilesInfo (envs j) db info
    let rr := insertFilesAux envs r.1 (j + 1) rest
    (rr.1, r.2 :: rr.2)

/-- Instrumented `InsertFiles` on the list of `DenoInfo` read from its input
channel. -/
def InsertFiles (envs : Nat → WriteEnv) (db : Ledger)
    (infos : List deno.DenoInfo) : Ledger × List Bool :=
  insertFilesAux envs db 0 infos

/-- Per-module error oracle for the instrumented `InsertModules`:
`json.Marshal`, `txn.Mutate` and `txn.Commit` outcomes. -/
structure ModEnv where
  marshalErr : Bool
  mutErr : Bool
  commitErr : Bool
deriving DecidableEq, Repr

/-- Control flow of the instrumented `InsertModules` loop, one entry per
inbound module (name paired with its error oracle).  Marshal and mutation
failures log, discard and `continue`; a commit failure hits `log.Fatalf`,
which exits the process — the `discard`/`continue` after it are unreachable.
Returns the modules emitted downstream and whether the process was killed.
The `all` identity-reuse map of the source only feeds the emitted module's
uid and does not affect control flow; it is elided here. -/
def InsertModules : List (String × ModEnv) → List String × Bool
  | [] => ([], false)
  | (name, env) :: rest =>
    if env.marshalErr then InsertModules rest
    else if env.mutErr then InsertModules rest
    else if env.commitErr then ([], true)
    else
      let r := InsertModules rest
      (name :: r.1, r.2)

end Andromeda.constellation

namespace Andromeda.main

open Andromeda.deno

/-- Walk of one version's entrypoints inside `IterateModuleInfo` (main.go):
per file, observe the context (an observed cancellation closes the output and
returns at once), run `deno.ExecInfo` (oracle `res`, indexed by the running
file counter), skip the file on error, emit the info on success.  Returns the
emitted infos, the counter after the walk, and whether cancellation was
observed. -/
def iterEntrypoints (res : Nat → Except Err DenoInfo) (cancelAt : Option Nat) :
    Nat → List directoryListing → List DenoInfo × Nat × Bool
  | n, [] => ([], n, false)
  | n, _f :: rest =>
    if cancelNow cancelAt n then ([], n, true)
    else
      let r := iterEntrypoints res cancelAt (n + 1) rest
      match res n with
      | .error _ => r
      | .ok info => (info :: r.1, r.2)

/-- Walk of all versions of one module inside `IterateModuleInfo`; an observed
cancellation aborts the remaining versions. -/
def iterVersions (res : Nat → Except Err DenoInfo) (cancelAt : Option Nat) :
    Nat → List (String × List directoryListing) → List DenoInfo × Nat × Bool
  | n, [] => ([], n, false)
  | n, (_v, files) :: rest =>
    let r := iterEntrypoints res cancelAt n files
    if r.2.2 then (r.1, r.2.1, true)
    else
      let r' := iterVersions res cancelAt r.2.1 rest
      (r.1 ++ r'.1, r'.2)

/-- Processing of one module in `IterateModuleInfo`: walk every version's
files, emitting each successful `DenoInfo` downstream; when the walk finishes
without observing cancellation, `sq.Delete(mod)` removes the module's queue
message (its success is assumed, a failure being fatal).  When cancellation is
observed the function returns immediately and the message stays in the queue.
Returns the infos sent downstream and whether the message was deleted. -/
def IterateModuleInfo (res : Nat → Except Err DenoInfo) (cancelAt : Option Nat)
    (mod : Module) : List DenoInfo × Bool :=
  let r := iterVersions res cancelAt 0 mod.Versions
  (r.1, !r.2.2)

/-- Total length of the file listings of a version map. -/
def lenSum : List (String × List directoryListing) → Nat
  | [] => 0
  | (_, files) :: rest => files.length + lenSum rest

/-- Number of files a module's walk visits. -/
def totalFiles (mod : Module) : Nat := lenSum mod.Versions

/-- Environment of one module's trip through the analyzer and writer stages:
the analyzer outcomes, the analyzer-stage cancellation point, and the
writer's per-`DenoInfo` environments. -/
structure PipeEnv where
  res : Nat → Except Err DenoInfo
  cancelAt : Option Nat
  wenvs : Nat → constellation.WriteEnv

/-- Composition `IterateModuleInfo → InsertFiles` as wired in `main`: the
infos the analyzer stage emits are exactly the infos the writer consumes.
Returns whether the module's queue message was deleted, the commit outcome of
each written `DenoInfo`, and the final ledger. -/
def runPipeline (p : PipeEnv) (mod : Module) (db : constellation.Ledger) :
    Bool × List Bool × constellation.Ledger :=
  let a := IterateModuleInfo p.res p.cancelAt mod
  let w := constellation.InsertFiles p.wenvs db a.1
  (a.2, w.2, w.1)

end Andromeda.main

namespace Andromeda

/-- Concrete analyzer output used by the C2 counterexample: one module
version with a single dependency-free file. -/
def c2Info : deno.DenoInfo :=
  ⟨10, "https://deno.land/x/foo@1.0.0/mod.ts",
    [("https://deno.land/x/foo@1.0.0/mod.ts", ⟨[], 10⟩)]⟩

/-- Concrete module of the C2 counterexample. -/
def c2Mod : deno.Module := ⟨"foo", [("1.0.0", [⟨"/mod.ts", 10, "file"⟩])]⟩

/-- Environment of the C2 counterexample: the analyzer succeeds, no
cancellation, and the writer's commit fails. -/
def c2Penv : main.PipeEnv :=
  ⟨fun _ => .ok c2Info, none, fun _ => ⟨fun _ => "0x1", fun _ => false, none, true⟩⟩

/-- Environment of the C2 amended-claim witness: analyzer succeeds, no
cancellation, commits succeed. -/
def c2wPenv : main.PipeEnv :=
  ⟨fun _ => .ok c2Info, none, fun _ => ⟨fun _ => "0x1", fun _ => false, none, false⟩⟩

/-- Concrete analyzer output used by the C4 counterexample. -/
def c4Info : deno.DenoInfo :=
  ⟨7, "https://deno.land/x/bar@1.0.0/mod.ts",
    [("https://deno.land/x/bar@1.0.0/mod.ts", ⟨[], 7⟩)]⟩

/-- Concrete module of the C4 counterexample. -/
def c4Mod : deno.Module := ⟨"bar", [("1.0.0", [⟨"/mod.ts", 7, "file"⟩])]⟩

/-- Environment of the C4 counterexample: the analyzer succeeds, no
cancellation, and the writer's commit fails. -/
def c4Penv : main.PipeEnv :=
  ⟨fun _ => .ok c4Info, none, fun _ => ⟨fun _ => "0x2", fun _ => false, none, true⟩⟩

/-- Writer environment of the C4 amended-claim witness: commit fails. -/
def c4wEnv : constellation.WriteEnv := ⟨fun _ => "0x9", fun _ => false, none, true⟩

end Andromeda

namespace Andromeda

theorem alookup_append (xs ys : List (String × String)) (key : String) :
    alookup (xs ++ ys) key =
      (alookup xs key).elim (alookup ys key) (fun v => some v) := by
  induction xs with
  | nil => simp [alookup]
  | cons p rest ih =>
    by_cases h : p.1 = key
    · simp [alookup, h]
    · simp [alookup, h, ih]

theorem alookup_singleton (k v key : String) :
    alookup [(k, v)] key = if k = key then some v else none := by
  by_cases h : k = key <;> simp [alookup, h]

theorem alookup_cons (k v key : String) (rest : List (String × String)) :
    alookup ((k, v) :: rest) key = if k = key then some v else alookup rest key := rfl

theorem cancelNow_true_iff (cA : Option Nat) (n : Nat) :
    cancelNow cA n = true ↔ ∃ c, cA = some c ∧ c ≤ n := by
  cases cA <;> simp [cancelNow]

theorem cancelNow_false_iff (cA : Option Nat) (n : Nat) :
    cancelNow cA n = false ↔ ∀ c, cA = some c → n < c := by
  cases cA <;> simp [cancelNow]

end Andromeda

namespace Andromeda.constellation

theorem alookup_mergeInto : ∀ (m out : List (String × String)) (k : String),
    alookup (mergeInto out m) k = (alookup out k).elim (alookup m k) (fun v => some v) := by
  intro m
  induction m with
  | nil =>
    intro out k
    cases h : alookup out k <;> simp [mergeInto, alookup, h]
  | cons kv rest ih =>
    obtain ⟨k1, v1⟩ := kv
    intro out k
    rw [show mergeInto out ((k1, v1) :: rest)
      = mergeInto (if alookup out k1 = none then out ++ [(k1, v1)] else out) rest from rfl]
    rw [ih]
    by_cases h1 : alookup out k1 = none
    · rw [if_pos h1, alookup_append]
      by_cases hk : k1 = k
      · subst hk
        simp [h1, alookup_singleton, alookup_cons]
      · rw [alookup_singleton, if_neg hk, alookup_cons, if_neg hk]
        cases ho : alookup out k <;> simp [ho]
    · rw [if_neg h1, alookup_cons]
      by_cases hk : k1 = k
      · subst hk
        cases ho : alookup out k1
        · exact absurd ho h1
        · simp [ho]
      · rw [if_neg hk]
    
theorem alookup_merge_foldl : ∀ (ms : List (List (String × String)))
    (out : List (String × String)) (k : String),
    alookup (ms.foldl mergeInto out) k
      = (alookup out k).elim (ms.findSome? (fun m => alookup m k)) (fun v => some v) := by
  intro ms
  induction ms with
  | nil =>
    intro out k
    cases h : alookup out k <;> simp [List.foldl, h]
  | cons m rest ih =>
    intro out k
    rw [show (m :: rest).foldl mergeInto out = rest.foldl mergeInto (mergeInto out m) from rfl]
    rw [ih, alookup_mergeInto]
    cases ho : alookup out k
    · cases hm : alookup m k <;> simp [List.findSome?, hm]
    · simp [List.findSome?]

theorem findSome_isSome_of_mem : ∀ (ms : List (List (String × String)))
    (m : List (String × String)) (k : String), m ∈ ms → (alookup m k).isSome = true →
    (ms.findSome? (fun mm => alookup mm k)).isSome = true := by
  intro ms
  induction ms with
  | nil => intro m k hm; cases hm
  | cons m0 rest ih =>
    intro m k hm hsome
    rcases List.mem_cons.mp hm with h | h
    · subst h
      cases hx : alookup m k
      · rw [hx] at hsome; cases hsome
      · simp [List.findSome?, hx]
    · cases hx : alookup m0 k
      · simpa [List.findSome?, hx] using ih m k h hsome
      · simp [List.findSome?, hx]

end Andromeda.constellation

namespace Andromeda.deno

theorem stripUselessEntries_eq_filter (l : List directoryListing) :
    stripUselessEntries l = l.filter keepEntry := by
  induction l with
  | nil => rfl
  | cons d rest ih =>
    by_cases hdir : d.type = "dir"
    · simp [stripUselessEntries, List.filter, keepEntry, hdir, ih]
    · by_cases hk : goExt d.path ≠ ".js" ∧ goExt d.path ≠ ".ts" ∧
          goExt d.path ≠ ".jsx" ∧ goExt d.path ≠ ".tsx" ∧ goBase d.path ≠ "README.md"
      · have hkeep : keepEntry d = false := by
          simp only [keepEntry, decide_eq_false_iff_not]
          rintro ⟨-, h⟩
          rcases h with h | h | h | h | h <;> simp_all
        simp [stripUselessEntries, List.filter, hdir, hk, hkeep, ih]
      · have hkeep : keepEntry d = true := by
          simp only [keepEntry, decide_eq_true_eq]
          refine ⟨hdir, ?_⟩
          by_contra hall
          push_neg at hall
          push_neg at hk
          exact hall.2.2.2.2 (hk hall.1 hall.2.1 hall.2.2.1 hall.2.2.2.1)
        simp [stripUselessEntries, List.filter, hdir, hk, hkeep, ih]

theorem keepEntry_false_of_dir (d : directoryListing) (h : d.type = "dir") :
    keepEntry d = false := by
  simp [keepEntry, h]

end Andromeda.deno

namespace Andromeda.constellation

theorem alookup_PutEntry_of_some (db : Ledger) (it : Item) (s u : String)
    (h : alookup db s = some u) : alookup (PutEntry none db it).1 s = some u := by
  unfold PutEntry
  by_cases hp : (alookup db it.Specifier).isSome
  · simp [hp, h]
  · simp only [hp, if_neg, Bool.false_eq_true, not_false_eq_true, if_false]
    rw [alookup_append, h]
    rfl

theorem alookup_PutEntry_change (db : Ledger) (it : Item) (s : String)
    (h : alookup (PutEntry none db it).1 s ≠ alookup db s) :
    alookup db s = none ∧ s = it.Specifier := by
  unfold PutEntry at h
  by_cases hp : (alookup db it.Specifier).isSome
  · simp [hp] at h
  · simp only [hp, Bool.false_eq_true, if_false] at h
    rw [alookup_append] at h
    cases ho : alookup db s
    · rw [ho] at h
      simp only [Option.elim_none] at h
      rw [alookup_singleton] at h
      by_cases he : it.Specifier = s
      · exact ⟨rfl, he.symm⟩
      · rw [if_neg he] at h; exact absurd rfl h
    · rw [ho] at h
      simp at h

theorem alookup_putUids_of_some : ∀ (uids : List (String × String)) (db : Ledger)
    (s u : String), alookup db s = some u → alookup (putUids db uids) s = some u := by
  intro uids
  induction uids with
  | nil => intro db s u h; exact h
  | cons su rest ih =>
    intro db s u h
    rw [show putUids db (su :: rest)
      = putUids (if goHasPre su.1 "https://" then (PutEntry none db ⟨su.1, su.2⟩).1 else db)
          rest from rfl]
    by_cases hg : goHasPre su.1 "https://" = true
    · rw [if_pos hg]
      exact ih _ s u (alookup_PutEntry_of_some db ⟨su.1, su.2⟩ s u h)
    · rw [if_neg (by simpa using hg)]
      exact ih db s u h

theorem alookup_putUids_change : ∀ (uids : List (String × String)) (db : Ledger)
    (s : String), alookup (putUids db uids) s ≠ alookup db s →
    alookup db s = none ∧ goHasPre s "https://" = true ∧ s ∈ uids.map Prod.fst := by
  intro uids
  induction uids with
  | nil => intro db s h; exact absurd rfl h
  | cons su rest ih =>
    intro db s h
    rw [show putUids db (su :: rest)
      = putUids (if goHasPre su.1 "https://" then (PutEntry none db ⟨su.1, su.2⟩).1 else db)
          rest from rfl] at h
    by_cases hg : goHasPre su.1 "https://" = true
    · rw [if_pos hg] at h
      by_cases he : alookup (PutEntry none db ⟨su.1, su.2⟩).1 s = alookup db s
      · rw [← he] at h
        obtain ⟨h1, h2, h3⟩ := ih _ s h
        rw [he] at h1
        exact ⟨h1, h2, by simp [h3]⟩
      · obtain ⟨h1, h2⟩ := alookup_PutEntry_change db ⟨su.1, su.2⟩ s he
        refine ⟨h1, ?_, by simp [h2]⟩
        rw [show s = su.1 from h2]
        exact hg
    · rw [if_neg (by simpa using hg)] at h
      obtain ⟨h1, h2, h3⟩ := ih db s h
      exact ⟨h1, h2, by simp [h3]⟩

theorem mem_insertUniq (acc : List String) (d s : String)
    (h : s ∈ insertUniq acc d) : s ∈ acc ∨ s = d := by
  unfold insertUniq at h
  by_cases hd : d ∈ acc
  · rw [if_pos hd] at h; exact Or.inl h
  · rw [if_neg hd] at h
    rcases List.mem_append.mp h with h | h
    · exact Or.inl h
    · exact Or.inr (List.mem_singleton.mp h)

theorem mem_blanks_foldl (db : Ledger) : ∀ (deps : List String) (acc : List String)
    (s : String),
    s ∈ deps.foldl (fun acc d => if (GetEntry db d).Uid ≠ "" then acc
      else insertUniq acc d) acc → s ∈ acc ∨ s ∈ deps := by
  intro deps
  induction deps with
  | nil => intro acc s h; exact Or.inl h
  | cons d rest ih =>
    intro acc s h
    rw [show (d :: rest).foldl (fun acc d => if (GetEntry db d).Uid ≠ "" then acc
        else insertUniq acc d) acc
      = rest.foldl (fun acc d => if (GetEntry db d).Uid ≠ "" then acc
        else insertUniq acc d) (if (GetEntry db d).Uid ≠ "" then acc
        else insertUniq acc d) from rfl] at h
    rcases ih _ s h with h' | h'
    · by_cases hu : (GetEntry db d).Uid ≠ ""
      · rw [if_pos hu] at h'; exact Or.inl h'
      · rw [if_neg hu] at h'
        rcases mem_insertUniq acc d s h' with h'' | h''
        · exact Or.inl h''
        · exact Or.inr (by simp [h''])
    · exact Or.inr (by simp [h'])

theorem mem_blankKeys (db : Ledger) (k : String) (deps : List String) (s : String)
    (h : s ∈ blankKeys db k deps) : s = k ∨ s ∈ deps := by
  unfold blankKeys at h
  by_cases hk : (GetEntry db k).Uid ≠ ""
  · rw [if_pos hk] at h
    rcases mem_blanks_foldl db deps [] s h with h' | h'
    · cases h'
    · exact Or.inr h'
  · rw [if_neg hk] at h
    rcases mem_insertUniq _ k s h with h' | h'
    · rcases mem_blanks_foldl db deps [] s h' with h'' | h''
      · cases h''
      · exact Or.inr h''
    · exact Or.inl h'

theorem mutateFile_uids_keys (assign : String → String) (mutErr : Bool)
    (db : Ledger) (k : String) (f : deno.FileEntry) (s : String)
    (h : s ∈ (mutateFile assign mutErr db k f).2.map Prod.fst) :
    s = k ∨ s ∈ f.Deps := by
  unfold mutateFile at h
  by_cases hm : mutErr = true
  · simp [hm] at h
  · simp only [Bool.not_eq_true] at hm
    simp only [hm, Bool.false_eq_true, if_false, List.map_map] at h
    have : s ∈ blankKeys db k f.Deps := by
      simpa using h
    exact mem_blankKeys db k f.Deps s this

end Andromeda.constellation

namespace Andromeda.constellation

theorem alookup_processFiles_of_some (env : WriteEnv) :
    ∀ (fs : List (String × deno.FileEntry)) (db : Ledger) (i : Nat) (s u : String),
    alookup db s = some u → alookup (processFiles env db i fs) s = some u := by
  intro fs
  induction fs with
  | nil => intro db i s u h; exact h
  | cons kf rest ih =>
    obtain ⟨k, f⟩ := kf
    intro db i s u h
    by_cases hc : cancelNow env.cancelAt i = true
    · rw [show processFiles env db i ((k, f) :: rest) = db by simp [processFiles, hc]]
      exact h
    · rw [show processFiles env db i ((k, f) :: rest)
        = processFiles env (putUids db (mutateFile env.assign (env.mutErr i) db k f).2)
            (i + 1) rest by simp [processFiles, hc]]
      exact ih _ (i + 1) s u (alookup_putUids_of_some _ db s u h)

theorem alookup_processFiles_change (env : WriteEnv) :
    ∀ (fs : List (String × deno.FileEntry)) (db : Ledger) (i : Nat) (s : String),
    alookup (processFiles env db i fs) s ≠ alookup db s →
    alookup db s = none ∧ goHasPre s "https://" = true ∧ s ∈ filesSpecifiers fs := by
  intro fs
  induction fs with
  | nil => intro db i s h; exact absurd rfl h
  | cons kf rest ih =>
    obtain ⟨k, f⟩ := kf
    intro db i s h
    by_cases hc : cancelNow env.cancelAt i = true
    · rw [show processFiles env db i ((k, f) :: rest) = db by simp [processFiles, hc]] at h
      exact absurd rfl h
    · rw [show processFiles env db i ((k, f) :: rest)
        = processFiles env (putUids db (mutateFile env.assign (env.mutErr i) db k f).2)
            (i + 1) rest by simp [processFiles, hc]] at h
      by_cases he : alookup (putUids db (mutateFile env.assign (env.mutErr i) db k f).2) s
          = alookup db s
      · rw [← he] at h
        obtain ⟨h1, h2, h3⟩ := ih _ (i + 1) s h
        rw [he] at h1
        exact ⟨h1, h2, by simp [filesSpecifiers, h3]⟩
      · obtain ⟨h1, h2, h3⟩ := alookup_putUids_change _ db s he
        rcases mutateFile_uids_keys env.assign (env.mutErr i) db k f s h3 with h4 | h4
        · exact ⟨h1, h2, by simp [filesSpecifiers, h4]⟩
        · exact ⟨h1, h2, by simp [filesSpecifiers, h4]⟩

end Andromeda.constellation

namespace Andromeda.main

theorem iterEntrypoints_state_cons (res : Nat → Except Err deno.DenoInfo)
    (cA : Option Nat) (n : Nat) (f : deno.directoryListing)
    (rest : List deno.directoryListing) (hc : cancelNow cA n = false) :
    (iterEntrypoints res cA n (f :: rest)).2 = (iterEntrypoints res cA (n + 1) rest).2 := by
  simp only [iterEntrypoints, hc, Bool.false_eq_true, if_false]
  cases res n <;> simp

theorem iterEntrypoints_spec (res : Nat → Except Err deno.DenoInfo) (cA : Option Nat) :
    ∀ (fs : List deno.directoryListing) (n : Nat),
    ((iterEntrypoints res cA n fs).2.2 = true ↔
      ∃ c, cA = some c ∧ 0 < fs.length ∧ c < n + fs.length) ∧
    ((iterEntrypoints res cA n fs).2.2 = false →
      (iterEntrypoints res cA n fs).2.1 = n + fs.length) := by
  intro fs
  induction fs with
  | nil =>
    intro n
    constructor
    · simp [iterEntrypoints]
    · intro _; simp [iterEntrypoints]
  | cons f rest ih =>
    intro n
    by_cases hc : cancelNow cA n = true
    · obtain ⟨c, hca, hcn⟩ := (cancelNow_true_iff cA n).mp hc
      have h1 : iterEntrypoints res cA n (f :: rest) = ([], n, true) := by
        simp [iterEntrypoints, hc]
      rw [h1]
      constructor
      · simp only [true_iff]
        exact ⟨c, hca, by simp, by simp; omega⟩
      · intro hfalse; cases hfalse
    · have hc' : cancelNow cA n = false := by simpa using hc
      have hlt := (cancelNow_false_iff cA n).mp hc'
      have hs := iterEntrypoints_state_cons res cA n f rest hc'
      have ihn := ih (n + 1)
      constructor
      · rw [show (iterEntrypoints res cA n (f :: rest)).2.2
          = (iterEntrypoints res cA (n + 1) rest).2.2 by rw [hs]]
        rw [ihn.1]
        constructor
        · rintro ⟨c, hca, hlen, hclt⟩
          exact ⟨c, hca, by simp, by simp at hclt ⊢; omega⟩
        · rintro ⟨c, hca, _, hclt⟩
          have hnc := hlt c hca
          have hlen : 0 < rest.length := by
            by_contra hz
            simp only [Nat.not_lt, Nat.le_zero] at hz
            simp [hz] at hclt
            omega
          exact ⟨c, hca, hlen, by simp at hclt ⊢; omega⟩
      · intro hfalse
        rw [hs] at hfalse ⊢
        rw [ihn.2 hfalse]
        simp; omega

theorem iterVersions_spec (res : Nat → Except Err deno.DenoInfo) (cA : Option Nat) :
    ∀ (vs : List (String × List deno.directoryListing)) (n : Nat),
    ((iterVersions res cA n vs).2.2 = true ↔
      ∃ c, cA = some c ∧ 0 < lenSum vs ∧ c < n + lenSum vs) ∧
    ((iterVersions res cA n vs).2.2 = false →
      (iterVersions res cA n vs).2.1 = n + lenSum vs) := by
  intro vs
  induction vs with
  | nil =>
    intro n
    constructor
    · simp [iterVersions, lenSum]
    · intro _; simp [iterVersions, lenSum]
  | cons v rest ih =>
    obtain ⟨vn, files⟩ := v
    intro n
    have hent := iterEntrypoints_spec res cA files n
    by_cases hcanc : (iterEntrypoints res cA n files).2.2 = true
    · have h1 : iterVersions res cA n ((vn, files) :: rest)
        = ((iterEntrypoints res cA n files).1, (iterEntrypoints res cA n files).2.1, true) := by
        simp [iterVersions, hcanc]
      rw [h1]
      obtain ⟨c, hca, hlen, hclt⟩ := hent.1.mp hcanc
      constructor
      · simp only [true_iff]
        refine ⟨c, hca, ?_, ?_⟩ <;> simp [lenSum] <;> omega
      · intro hfalse; cases hfalse
    · have hcanc' : (iterEntrypoints res cA n files).2.2 = false := by simpa using hcanc
      have hctr := hent.2 hcanc'
      have h1 : iterVersions res cA n ((vn, files) :: rest)
        = ((iterEntrypoints res cA n files).1
            ++ (iterVersions res cA (n + files.length) rest).1,
           (iterVersions res cA (n + files.length) rest).2) := by
        simp only [iterVersions, hcanc', Bool.false_eq_true, if_false, hctr]
      have ihn := ih (n + files.length)
      rw [h1]
      constructor
      · simp only []
        rw [ihn.1]
        constructor
        · rintro ⟨c, hca, hlen, hclt⟩
          refine ⟨c, hca, ?_, ?_⟩ <;> simp [lenSum] at * <;> omega
        · rintro ⟨c, hca, hlen, hclt⟩
          have hnotent : ¬(0 < files.length ∧ c < n + files.length) := by
            intro ⟨ha, hb⟩
            exact absurd (hent.1.mpr ⟨c, hca, ha, hb⟩) (by simp [hcanc'])
          simp only [lenSum] at hlen hclt
          refine ⟨c, hca, ?_, ?_⟩ <;> omega
      · intro hfalse
        simp only [] at hfalse
        rw [ihn.2 hfalse]
        simp [lenSum]; omega

end Andromeda.main

namespace Andromeda.deno

theorem filter_keep_nil_of_dir : ∀ (l : List directoryListing),
    (∀ e ∈ l, e.type = "dir") → l.filter keepEntry = [] := by
  intro l
  induction l with
  | nil => intro _; rfl
  | cons d rest ih =>
    intro h
    have hd : keepEntry d = false := keepEntry_false_of_dir d (h d (by simp))
    simp only [List.filter, hd]
    exact ih (fun e he => h e (by simp [he]))

end Andromeda.deno

namespace Andromeda

/-- C1: the claim asserts that after the writer commits a `FileInfo`, the
`depends_on` list of the `File` node for specifier `s` holds exactly one node
per element of `deps` with no extra or empty nodes.  The code's `mutateFile`
builds the slice with `make([]File, len(entry.Deps))` followed by `append`,
so the marshalled node carries one zero-valued placeholder `File{}` per
dependency in front of the real references: for a single dependency the list
has length 2 and starts with the empty `File`. -/
theorem c1_mutateFile_pads_dependsOn :
    (constellation.mutateFile (fun s => "0x" ++ s) false [] "https://s"
        ⟨["https://a"], 1⟩).1
      = constellation.File.mk "_:https://s" "https://s"
          [constellation.emptyFile, constellation.File.mk "_:https://a" "" [] []]
          ["File"]
    ∧ ((constellation.mutateFile (fun s => "0x" ++ s) false [] "https://s"
        ⟨["https://a"], 1⟩).1).DependsOn.length = 2 :=
  ⟨rfl, rfl⟩

/-- C3: the claim asserts that marshalling, mutation and commit failures in
the writer stage never terminate the process.  In the instrumented
`InsertModules` a commit failure hits `log.Fatalf`, which exits the process
(the `discard`/`continue` after it are unreachable): with a commit failure on
the first module, the run ends fatally and the second module is never
processed. -/
theorem c3_insertModules_commit_exits :
    constellation.InsertModules
      [("a", ⟨false, false, true⟩), ("b", ⟨false, false, false⟩)] = ([], true) :=
  rfl

/-- C5: the ledger's `PutEntry` is a conditional insert-if-absent: with no
service failure, an absent specifier is appended with the given identity, and
a present specifier leaves the stored identity unchanged while returning a
nil error, so the first writer's identity wins. -/
theorem c5_PutEntry_insert_if_absent : ∀ (db : constellation.Ledger)
    (it : constellation.Item),
    (alookup db it.Specifier = none →
      constellation.PutEntry none db it = (db ++ [(it.Specifier, it.Uid)], none) ∧
      alookup (constellation.PutEntry none db it).1 it.Specifier = some it.Uid) ∧
    (∀ u, alookup db it.Specifier = some u →
      constellation.PutEntry none db it = (db, none) ∧
      alookup (constellation.PutEntry none db it).1 it.Specifier = some u) := by
  intro db it
  constructor
  · intro h
    have h2 : constellation.PutEntry none db it = (db ++ [(it.Specifier, it.Uid)], none) := by
      unfold constellation.PutEntry
      simp [h]
    refine ⟨h2, ?_⟩
    rw [h2]
    show alookup (db ++ [(it.Specifier, it.Uid)]) it.Specifier = some it.Uid
    rw [alookup_append, h]
    simp [alookup_singleton]
  · intro u h
    have h2 : constellation.PutEntry none db it = (db, none) := by
      unfold constellation.PutEntry
      simp [Option.isSome_iff_exists.mpr ⟨u, h⟩]
    exact ⟨h2, by rw [h2]; exact h⟩

/-- Witness for C5 at a concrete ledger: a second put for an existing
specifier leaves the first identity in place and succeeds. -/
theorem c5_PutEntry_witness :
    alookup [("https://x", "0x1")] "https://x" = some "0x1" ∧
    (constellation.PutEntry none [("https://x", "0x1")] ⟨"https://x", "0x9"⟩
        = ([("https://x", "0x1")], none) ∧
      alookup (constellation.PutEntry none [("https://x", "0x1")]
        ⟨"https://x", "0x9"⟩).1 "https://x" = some "0x1") :=
  ⟨by decide,
    (c5_PutEntry_insert_if_absent [("https://x", "0x1")] ⟨"https://x", "0x9"⟩).2
      "0x1" (by decide)⟩

/-- C6: in the context-aware `ExecInfo` (the analyze call of the pipeline),
when the decode succeeds and the subprocess exits non-zero without the
context being cancelled, the call returns the wait error and the zero-valued
`DenoInfo` — the decoded value is discarded, not returned as a success. -/
theorem c6_ExecInfo_nonzero_exit_error : ∀ (info : deno.DenoInfo) (e : Err),
    deno.ExecInfo none none (Except.ok info) false (some e)
      = (deno.emptyDenoInfo, some e, false) :=
  fun _ _ => rfl

/-- C7: in the context-aware `ExecInfo`, when the context is cancelled after a
successful decode-start, the subprocess is sent SIGTERM and the call returns
the empty `DenoInfo` with a nil error, whatever the wait outcome would be. -/
theorem c7_ExecInfo_cancel_not_error : ∀ (info : deno.DenoInfo)
    (waitErr : Option Err),
    deno.ExecInfo none none (Except.ok info) true waitErr
      = (deno.emptyDenoInfo, none, true) :=
  fun _ _ => rfl

end Andromeda

namespace Andromeda

/-- C8: the strip filter is exactly the order-preserving sublist of entries
that are not directories and have a `.js`/`.ts`/`.jsx`/`.tsx` extension or a
`README.md` basename; the empty listing maps to the empty listing, a listing
of only directories maps to the empty listing, a non-README `foo.md` entry is
dropped, and no directory entry ever appears in an output. -/
theorem c8_stripUselessEntries_spec :
    (∀ l, deno.stripUselessEntries l = l.filter deno.keepEntry) ∧
    deno.stripUselessEntries [] = [] ∧
    (∀ l, (∀ e ∈ l, e.type = "dir") → deno.stripUselessEntries l = []) ∧
    deno.stripUselessEntries [⟨"foo.md", 1, "file"⟩] = [] ∧
    (∀ l e, e ∈ deno.stripUselessEntries l → ¬ e.type = "dir") := by
  refine ⟨deno.stripUselessEntries_eq_filter, rfl, ?_, by decide, ?_⟩
  · intro l h
    rw [deno.stripUselessEntries_eq_filter]
    exact deno.filter_keep_nil_of_dir l h
  · intro l e he
    rw [deno.stripUselessEntries_eq_filter] at he
    have hk := (List.mem_filter.mp he).2
    rw [deno.keepEntry, decide_eq_true_eq] at hk
    exact hk.1

/-- Witness for C8 at a directory-only listing: the filter empties it. -/
theorem c8_stripUselessEntries_witness :
    (∀ e ∈ [(⟨"a", 0, "dir"⟩ : deno.directoryListing)], e.type = "dir") ∧
    deno.stripUselessEntries [(⟨"a", 0, "dir"⟩ : deno.directoryListing)] = [] :=
  ⟨by decide, c8_stripUselessEntries_spec.2.2.1 _ (by decide)⟩

/-- C9: `merge` is left-biased: a key is bound to its value in the earliest
map of the sequence containing it, merging a single map is lookup-equal to
that map, and no key present in any input is dropped. -/
theorem c9_merge_left_biased :
    (∀ ms k, alookup (constellation.merge ms) k
      = ms.findSome? (fun m => alookup m k)) ∧
    (∀ m k, alookup (constellation.merge [m]) k = alookup m k) ∧
    (∀ ms m k, m ∈ ms → (alookup m k).isSome = true →
      (alookup (constellation.merge ms) k).isSome = true) := by
  have h1 : ∀ ms k, alookup (constellation.merge ms) k
      = ms.findSome? (fun m => alookup m k) := by
    intro ms k
    unfold constellation.merge
    rw [constellation.alookup_merge_foldl]
    rfl
  refine ⟨h1, ?_, ?_⟩
  · intro m k
    rw [h1]
    cases h : alookup m k <;> simp [List.findSome?, h]
  · intro ms m k hm hs
    rw [h1]
    exact constellation.findSome_isSome_of_mem ms m k hm hs

/-- Witness for C9 on two maps binding the same key: the earliest binding
survives. -/
theorem c9_merge_witness :
    ([("a", "1")] ∈ [[("a", "1")], [("a", "2")]]) ∧
    (alookup [("a", "1")] "a").isSome = true ∧
    (alookup (constellation.merge [[("a", "1")], [("a", "2")]]) "a").isSome = true :=
  ⟨by decide, by decide,
    c9_merge_left_biased.2.2 [[("a", "1")], [("a", "2")]] [("a", "1")] "a"
      (by decide) (by decide)⟩

/-- C10: the in-memory queue's `Put` and `Get` always return a nil error, and
a `Get` on the drained closed channel yields the zero-valued `Module` while
setting the `closed` flag, after which `isOpened` is false — the consumer
sees a spurious empty `Module`, never an error. -/
theorem c10_ChanQueue_spec :
    (∀ (q : deno.ChanQueue) (m : deno.Module), (q.Put m).2 = none) ∧
    (∀ (q q' : deno.ChanQueue) (m : deno.Module) (e : Option Err),
      q.Get = some (q', m, e) → e = none) ∧
    (∀ q : deno.ChanQueue, q.mods = [] → q.senderClosed = true →
      q.Get = some ({ q with closed := true }, deno.zeroModule, none) ∧
      deno.ChanQueue.isOpened { q with closed := true } = false) := by
  refine ⟨fun q m => rfl, ?_, ?_⟩
  · intro q q' m e h
    cases hq : q.mods with
    | nil =>
      by_cases hs : q.senderClosed = true
      · simp only [deno.ChanQueue.Get, hq, hs, if_true] at h
        have h' := Option.some.inj h
        exact (congrArg (fun t => t.2.2) h').symm
      · have hs' : q.senderClosed = false := by simpa using hs
        simp [deno.ChanQueue.Get, hq, hs'] at h
    | cons m0 rest =>
      simp only [deno.ChanQueue.Get, hq] at h
      have h' := Option.some.inj h
      exact (congrArg (fun t => t.2.2) h').symm
  · intro q h1 h2
    constructor
    · simp [deno.ChanQueue.Get, h1, h2]
    · rfl

/-- Witness for C10 on the drained closed queue. -/
theorem c10_ChanQueue_witness :
    (deno.ChanQueue.mk [] true false).mods = [] ∧
    (deno.ChanQueue.mk [] true false).senderClosed = true ∧
    ((deno.ChanQueue.mk [] true false).Get
        = some (deno.ChanQueue.mk [] true true, deno.zeroModule, none) ∧
      deno.ChanQueue.isOpened (deno.ChanQueue.mk [] true true) = false) :=
  ⟨rfl, rfl, c10_ChanQueue_spec.2.2 (deno.ChanQueue.mk [] true false) rfl rfl⟩

end Andromeda

namespace Andromeda

/-- C2 counterexample: in `main`, the queue delete lives in the analyzer stage
(`IterateModuleInfo`), which deletes the module's message after emitting its
infos downstream regardless of the writer.  With a one-file module whose
analyzer call succeeds and whose writer commit fails, the message is deleted
while the module's only write transaction did not commit. -/
theorem c2_delete_without_commit_cex :
    (main.runPipeline c2Penv c2Mod []).1 = true ∧
    (main.runPipeline c2Penv c2Mod []).2.1 = [false] := by
  constructor <;> decide

/-- C2 amended: a module's queue message is deleted iff the analyzer stage
walks all the module's files without observing cancellation; the deletion is
independent of the writer stage's environment — in particular of whether any
write transaction commits. -/
theorem c2_delete_iff_uncancelled :
    ∀ (p : main.PipeEnv) (mod : deno.Module) (db : constellation.Ledger),
    ((main.runPipeline p mod db).1 = true ↔
      (∀ c, p.cancelAt = some c → main.totalFiles mod ≤ c)) ∧
    (∀ w, (main.runPipeline ⟨p.res, p.cancelAt, w⟩ mod db).1
      = (main.runPipeline p mod db).1) := by
  intro p mod db
  constructor
  · have hspec := main.iterVersions_spec p.res p.cancelAt mod.Versions 0
    have htot : main.totalFiles mod = main.lenSum mod.Versions := rfl
    have hrp : (main.runPipeline p mod db).1
        = !(main.iterVersions p.res p.cancelAt 0 mod.Versions).2.2 := rfl
    rw [hrp]
    constructor
    · intro hdel c hc
      have hcanc : (main.iterVersions p.res p.cancelAt 0 mod.Versions).2.2 = false := by
        simpa using hdel
      by_contra hlt
      push_neg at hlt
      rw [htot] at hlt
      have hT : (main.iterVersions p.res p.cancelAt 0 mod.Versions).2.2 = true :=
        hspec.1.mpr ⟨c, hc, by omega, by omega⟩
      rw [hT] at hcanc
      cases hcanc
    · intro hall
      cases hcv : (main.iterVersions p.res p.cancelAt 0 mod.Versions).2.2
      · simp
      · exfalso
        obtain ⟨c, hca, hlen, hclt⟩ := hspec.1.mp hcv
        have hle := hall c hca
        rw [htot] at hle
        omega
  · intro w
    rfl

/-- Witness for C2 amended: with no cancellation the message is deleted. -/
theorem c2_delete_iff_uncancelled_witness :
    (main.runPipeline c2wPenv c2Mod []).1 = true := by
  exact (c2_delete_iff_uncancelled c2wPenv c2Mod []).1.mpr
    (fun c hc => by simp [c2wPenv] at hc)

/-- C4 counterexample: the instrumented `InsertFiles` upserts the ledger after
each mutation and before the commit, and the queue delete lives in the
analyzer stage.  With a one-file module whose commit fails, the ledger ends
up with a new entry for the specifier first observed in that uncommitted
transaction, and the module's queue message is deleted all the same. -/
theorem c4_ledger_entry_without_commit_cex :
    alookup (main.runPipeline c4Penv c4Mod []).2.2
        "https://deno.land/x/bar@1.0.0/mod.ts" = some "0x2" ∧
    (main.runPipeline c4Penv c4Mod []).2.1 = [false] ∧
    (main.runPipeline c4Penv c4Mod []).1 = true := by
  refine ⟨by decide, by decide, by decide⟩

/-- C4 amended: when a module's write transaction does not commit, previously
stored ledger identities are unchanged, and any ledger difference is a new
entry for an `https://` specifier occurring in the module's `files` map (as a
key or a dependency) that was absent before — such entries can exist because
the upserts precede the commit; and the queue-message deletion is decided by
the analyzer stage alone, independent of the writer. -/
theorem c4_abort_ledger_characterization :
    ∀ (env : constellation.WriteEnv) (db : constellation.Ledger)
      (info : deno.DenoInfo), env.commitErr = true →
    ((constellation.insertFilesInfo env db info).2 = false ∧
      (∀ s u, alookup db s = some u →
        alookup (constellation.insertFilesInfo env db info).1 s = some u) ∧
      (∀ s, alookup (constellation.insertFilesInfo env db info).1 s ≠ alookup db s →
        alookup db s = none ∧ goHasPre s "https://" = true ∧
        s ∈ constellation.filesSpecifiers info.Files) ∧
      (∀ (p : main.PipeEnv) (mod : deno.Module) (ld : constellation.Ledger),
        (main.runPipeline p mod ld).1
          = (main.IterateModuleInfo p.res p.cancelAt mod).2)) := by
  intro env db info h
  refine ⟨?_, ?_, ?_, fun p mod ld => rfl⟩
  · simp [constellation.insertFilesInfo, h]
  · intro s u hs
    exact constellation.alookup_processFiles_of_some env info.Files db 0 s u hs
  · intro s hs
    exact constellation.alookup_processFiles_change env info.Files db 0 s hs

/-- Witness for C4 amended: an identity stored before the aborted transaction
survives it unchanged. -/
theorem c4_abort_ledger_witness :
    c4wEnv.commitErr = true ∧
    alookup (constellation.insertFilesInfo c4wEnv [("https://old", "0xold")]
        deno.emptyDenoInfo).1 "https://old" = some "0xold" :=
  ⟨rfl,
    (c4_abort_ledger_characterization c4wEnv [("https://old", "0xold")]
      deno.emptyDenoInfo rfl).2.1 "https://old" "0xold" (by decide)⟩

end Andromeda
